import Mathlib

/-!
Verification of the flagbind repository: a shallow embedding of the
tag parser (flagtag.go), the camel-case name deriver (FromCamelCase),
and the struct field walker (bind.go) binding fields of a Go struct to
a standard-library flag set, together with theorems settling the
spec claims.

Strings are modelled as Lean strings (lists of characters).  The rune
predicates model the ASCII fragment of the Go unicode package, which
coincides with the Go behaviour on all ASCII input.
-/

namespace Flagbind

/-! ## Rune model: ASCII fragment of the Go unicode package -/

/-- ASCII fragment of Go unicode.IsUpper: the character is in A..Z. -/
def isUpperGo (c : Char) : Bool := decide (65 ≤ c.toNat ∧ c.toNat ≤ 90)

/-- ASCII fragment of Go unicode.ToLower: map A..Z to a..z, leave the rest. -/
def toLowerGo (c : Char) : Char :=
  if 65 ≤ c.toNat ∧ c.toNat ≤ 90 then Char.ofNat (c.toNat + 32) else c

/-- ASCII fragment of Go unicode.IsSpace, used by strings.TrimSpace. -/
def isSpaceGo (c : Char) : Bool :=
  c = ' ' || c = '\t' || c = '\n' || c = '\x0b' || c = '\x0c' || c = '\r'

/-- Go strings.ToLower on the ASCII fragment. -/
def toLowerList (l : List Char) : List Char := l.map toLowerGo

/-- Go strings.TrimSpace on the ASCII fragment: drop leading and trailing
whitespace characters. -/
def trimSpace (l : List Char) : List Char :=
  ((l.dropWhile isSpaceGo).reverse.dropWhile isSpaceGo).reverse

/-- Go strings.TrimLeft(s, "-"): drop every leading dash character. -/
def trimLeftDashes (l : List Char) : List Char := l.dropWhile (fun c => c == '-')

/-- Go strings.Contains(s, substr): substr occurs as a contiguous
substring of s (always true for the empty substring). -/
def containsSub (sub : List Char) : List Char → Bool
  | [] => sub.isEmpty
  | c :: t => sub.isPrefixOf (c :: t) || containsSub sub t

/-- Go strings.Split(s, sep) for a single-character separator:
split on every occurrence of the separator.  The result is never empty,
and splitting the empty string gives one empty piece. -/
def splitOnChar (sep : Char) : List Char → List (List Char)
  | [] => [[]]
  | c :: cs =>
    if c = sep then [] :: splitOnChar sep cs
    else
      match splitOnChar sep cs with
      | [] => [[c]]
      | h :: t => (c :: h) :: t

/-! ## flagTag (src/flagtag.go) -/

/-- The parsed flag tag settings, from the flagTag struct in src/flagtag.go.
Zero value: empty strings and false booleans, as in Go. -/
structure flagTag where
  Name : String := ""
  ShortName : String := ""
  HasExplicitName : Bool := false
  IsIgnored : Bool := false
  DefValue : String := ""
  Usage : String := ""
  HideDefault : Bool := false
  Hidden : Bool := false
  Flatten : Bool := false
deriving Repr, DecidableEq, Inhabited

/-- parseNames (src/flagtag.go lines 86-111): split the name segment on
commas, trim leading dashes from the first two candidates, sort the two
resulting names by length, censor an oversized short name, and promote a
single-character long name to the short name. -/
def parseNames (fTag : flagTag) (name : String) : flagTag :=
  let names := splitOnChar ',' name.data
  let fTag := { fTag with Name := String.mk (trimLeftDashes (names.headD [])) }
  let fTag :=
    match names.get? 1 with
    | some n1 => { fTag with ShortName := String.mk (trimLeftDashes n1) }
    | none => fTag
  let fTag :=
    if fTag.Name.length < fTag.ShortName.length then
      { fTag with Name := fTag.ShortName, ShortName := fTag.Name }
    else fTag
  let fTag :=
    if fTag.ShortName.length > 1 then { fTag with ShortName := "" } else fTag
  let fTag :=
    if fTag.Name.length = 1 then { fTag with ShortName := fTag.Name } else fTag
  { fTag with HasExplicitName := fTag.Name != "" }

/-- parseOptions (src/flagtag.go lines 114-119): lower-case the options
segment and look for the literal substrings hidden, hide-default, flatten. -/
def parseOptions (fTag : flagTag) (opts : String) : flagTag :=
  let opts := toLowerList opts.data
  { fTag with
    Hidden := containsSub "hidden".data opts
    HideDefault := containsSub "hide-default".data opts
    Flatten := containsSub "flatten".data opts }

/-- newFlagTag (src/flagtag.go lines 56-83): split the tag on semicolons
into name, default value, usage and options segments. -/
def newFlagTag (tag : String) : flagTag :=
  if tag = "" then {}
  else
    let args := splitOnChar ';' tag.data
    if args.headD [] = ['-'] then { IsIgnored := true }
    else
      let fTag := parseNames {} (String.mk (args.headD []))
      match args.get? 1 with
      | none => fTag
      | some a1 =>
        let fTag := { fTag with DefValue := String.mk a1 }
        match args.get? 2 with
        | none => fTag
        | some a2 =>
          let fTag := { fTag with Usage := String.mk (trimSpace a2) }
          match args.get? 3 with
          | none => fTag
          | some a3 => parseOptions fTag (String.mk a3)

/-! ## FromCamelCase (src/flagtag.go lines 159-203) -/

/-- One step of the FromCamelCase loop body, operating on the pair of the
kebab output accumulator and the pending acronym buffer. -/
def fccStep (sep : List Char) (st : List Char × List Char) (r : Char) :
    List Char × List Char :=
  let kebab := st.1
  let acronym := st.2
  if isUpperGo r then (kebab, acronym ++ [toLowerGo r])
  else
    let kebab :=
      if acronym.length > 1 then
        (if kebab ≠ [] then kebab ++ sep else kebab)
          ++ acronym.dropLast ++ sep ++ [acronym.getLastD ' ']
      else if acronym ≠ [] then
        (if kebab ≠ [] then kebab ++ sep else kebab) ++ acronym
      else kebab
    (kebab ++ [r], [])

/-- The final assembly after the FromCamelCase loop: join the kebab
accumulator and any remaining acronym with the separator. -/
def fccFinish (sep : List Char) (st : List Char × List Char) : List Char :=
  (if st.1 ≠ [] ∧ st.2 ≠ [] then st.1 ++ sep else st.1) ++ st.2

/-- FromCamelCase (src/flagtag.go lines 159-203): convert CamelCase to
kebab-case (or any separator), keeping capitalized acronym runs together
and splitting the last acronym character off before a lowercase run. -/
def FromCamelCase (name sep : String) : String :=
  String.mk (fccFinish sep.data (name.data.foldl (fccStep sep.data) ([], [])))

/-! ## Leaf values and the standard flag set (the Go flag package fragment)

The walker is modelled bound to a standard-library style flag set
(STDFlagSet in bind.go); the flag set is a list of registered flags.
Leaf fields carry one of the bindable value kinds; the model includes
the bool, int and string kinds of bindSTDFlag. -/

/-- A bindable leaf value: the bool, int and string cases of bindSTDFlag. -/
inductive LeafVal where
  | boolV (b : Bool)
  | intV (i : Int)
  | strV (s : String)
deriving Repr, DecidableEq

/-- reflect.Value.IsZero for the modelled leaf kinds. -/
def LeafVal.isZero : LeafVal → Bool
  | .boolV b => !b
  | .intV i => i == 0
  | .strV s => s == ""

/-- The textual rendering the flag package records as DefValue when a
flag is registered (Value.String()). -/
def LeafVal.render : LeafVal → String
  | .boolV b => if b then "true" else "false"
  | .intV i => toString i
  | .strV s => s

/-- strconv.ParseBool: the exact list of accepted literals. -/
def parseBoolGo (s : String) : Option Bool :=
  if s ∈ ["1", "t", "T", "true", "TRUE", "True"] then some true
  else if s ∈ ["0", "f", "F", "false", "FALSE", "False"] then some false
  else none

/-- Decimal digit run to a number; none on empty or non-digit input. -/
def parseDigits (l : List Char) : Option Nat :=
  if l ≠ [] ∧ l.all (fun c => c.isDigit) then
    some (l.foldl (fun acc c => 10 * acc + (c.toNat - 48)) 0)
  else none

/-- The decimal fragment of the integer parsing done by the flag package
(strconv.ParseInt); the hexadecimal, octal and underscore literal forms
are not modelled (no claim depends on them). -/
def parseIntGo (s : String) : Option Int :=
  match s.data with
  | '-' :: rest => (parseDigits rest).map (fun n => -(n : Int))
  | '+' :: rest => (parseDigits rest).map (fun n => (n : Int))
  | l => (parseDigits l).map (fun n => (n : Int))

/-- Parse a textual value at the type of an existing leaf value, as the
flag package Set does through the flag Value of that kind. -/
def LeafVal.parseAs : LeafVal → String → Option LeafVal
  | .boolV _, s => (parseBoolGo s).map .boolV
  | .intV _, s => (parseIntGo s).map .intV
  | .strV _, s => some (.strV s)

/-- One flag registered in the flag set: name, usage, current value and
the recorded textual default (flag.Flag). -/
structure Flag where
  name : String
  usage : String
  value : LeafVal
  defValue : String
deriving Repr, DecidableEq

/-- The flag set state: the list of registered flags in registration
order (flag.FlagSet, with an empty flag set name). -/
structure FS where
  flags : List Flag := []
deriving Repr, DecidableEq

/-- fs.Lookup(name). -/
def FS.lookup (fs : FS) (name : String) : Option Flag :=
  fs.flags.find? (fun f => f.name == name)

/-- Registration through the Var family of the flag package: a duplicate
name makes the package panic with a message naming the redefined flag
(the error case models that panic signal, with the empty flag set name). -/
def FS.register (fs : FS) (fl : Flag) : Except String FS :=
  if (fs.lookup fl.name).isSome then .error ("flag redefined: " ++ fl.name)
  else .ok { flags := fs.flags ++ [fl] }

/-- fs.Set(name, value): parse the textual value at the type of the
registered flag and update its current value; an unknown name or a parse
failure is an error. -/
def FS.set (fs : FS) (name s : String) : Except String FS :=
  match fs.lookup name with
  | none => .error ("no such flag -" ++ name)
  | some fl =>
    match fl.value.parseAs s with
    | none => .error ("invalid value " ++ s ++ " for flag -" ++ name)
    | some v =>
      .ok { flags := fs.flags.map (fun f =>
        if f.name == name then { f with value := v } else f) }

/-! ## The struct model

A Go struct is a list of fields; each field has an identifier, an
optional flag tag string, an optional use tag string, an anonymous
(embedded) marker and a value that is either a leaf or a nested struct.
A nil pointer field is allocated by bind before use, so a pointer leaf
field is modelled by its value after that allocation (the zero value for
a previously nil pointer). -/

mutual
/-- The value held by a struct field: a bindable leaf or a nested struct. -/
inductive FieldValue where
  | leaf (v : LeafVal) : FieldValue
  | nested (fields : List StructField) : FieldValue

/-- One field of a Go struct: identifier, flag tag (none when the tag is
absent), use tag, embedded marker, and the field value. -/
inductive StructField where
  | mk (name : String) (tagStr : Option String) (useTag : Option String)
      (anonymous : Bool) (value : FieldValue) : StructField
end

/-- The field identifier. -/
def StructField.name : StructField → String
  | .mk n _ _ _ _ => n

/-- The raw flag tag, none when the field has no flag tag. -/
def StructField.tagStr : StructField → Option String
  | .mk _ t _ _ _ => t

/-- The raw use tag, none when the field has no use tag. -/
def StructField.useTag : StructField → Option String
  | .mk _ _ u _ _ => u

/-- Whether the field is embedded (anonymous). -/
def StructField.anonymous : StructField → Bool
  | .mk _ _ _ a _ => a

/-- The value of the field. -/
def StructField.value : StructField → FieldValue
  | .mk _ _ _ _ v => v

/-- A Go struct field is exported exactly when its identifier starts
with an upper-case letter (reflect.StructField.PkgPath is empty). -/
def isExportedName (n : String) : Bool :=
  match n.data with
  | [] => false
  | c :: _ => isUpperGo c

/-! ## The field walker (bind.go) -/

/-- The package-wide separator variable, at its default value. -/
def Separator : String := "-"

/-- The bind configuration (the bind struct): the accumulated prefix and
the NoAutoFlatten option.  The cobra filter is not modelled: with the
default filter a tag is ignored exactly when its IsIgnored flag is set. -/
structure BindState where
  Prefix : String := ""
  NoAutoFlatten : Bool := false
deriving Repr, DecidableEq

/-- b.IsIgnored(tag) under the default (non cobra) filter. -/
def BindState.IsIgnored (_b : BindState) (tag : flagTag) : Bool := tag.IsIgnored

/-- The model binds to a standard library flag set, so the PFlagSet
capability test in bind is false. -/
def usePFlag : Bool := false

/-- The name auto-population step of the field loop (bind.go lines
374-379): when the tag has no explicit name (or, under pflag, only a
short name), the name is derived from the field identifier. -/
def autoName (tag : flagTag) (fieldName : String) : flagTag :=
  if !tag.HasExplicitName || (usePFlag && tag.Name == tag.ShortName) then
    { tag with Name := FromCamelCase fieldName Separator }
  else tag

/-- appendSeparator (bind.go lines 519-533): append the separator to a
non-empty prefix unless it already ends in a common separator. -/
def appendSeparator (pfx : String) : String :=
  if pfx = "" then pfx
  else if ["-", ".", "_"].any (fun sep => sep.data.isSuffixOf pfx.data) then pfx
  else pfx ++ Separator

/-- loadExtendedUsage (bind.go lines 498-517): consume the immediately
following blank-identifier fields that carry a use tag, concatenating
their text onto the usage string with single-space joins, and return the
remaining fields (the advanced loop position). -/
def loadExtendedUsage (tag : flagTag) : List StructField → flagTag × List StructField
  | [] => (tag, [])
  | f :: rest =>
    if f.name = "_" then
      match f.useTag with
      | some usage =>
        loadExtendedUsage
          { tag with Usage := (if tag.Usage != "" then tag.Usage ++ " " else tag.Usage) ++ usage }
          rest
      | none => (tag, f :: rest)
    else (tag, f :: rest)

theorem loadExtendedUsage_sizeOf_le (tag : flagTag) (l : List StructField) :
    sizeOf (loadExtendedUsage tag l).2 ≤ sizeOf l := by
  induction l generalizing tag with
  | nil => simp [loadExtendedUsage]
  | cons f rest ih =>
    rw [loadExtendedUsage]
    by_cases h : f.name = "_"
    · simp only [h, if_true]
      match hu : f.useTag with
      | some usage =>
        refine le_trans (ih _) ?_
        simp only [List.cons.sizeOf_spec]
        omega
      | none => simp
    · simp [h]

/-- The errors Bind can return, from error.go and the uses in bind.go. -/
inductive BindErr where
  | invalidType (isNil : Bool) : BindErr
  | invalidFlagSet : BindErr
  | recovered (msg : String) : BindErr
  | nestedStruct (fieldName : String) (e : BindErr) : BindErr
  | defaultValue (fieldName defVal msg : String) : BindErr
  | overrideUndefined (name : String) : BindErr
deriving Repr, DecidableEq

/-- The state of one pass of the field loop: normal completion with the
collected tag defaults, an early error return, or a pending panic from
the flag registry.  Every outcome carries the flag set as mutated so far. -/
inductive LoopRes where
  | ok (fs : FS) (ds : List (String × String)) : LoopRes
  | err (e : BindErr) (fs : FS) : LoopRes
  | panicked (msg : String) (fs : FS) : LoopRes
deriving Repr, DecidableEq

/-- bindSTDFlag (bind.go lines 545-588): register the leaf with the
current value as the default, then blank the recorded default when
hide-default is set.  All modelled leaf kinds are supported, so the
created result is always true (the default case returning false is for
unsupported types only). -/
def bindSTDFlag (fs : FS) (tag : flagTag) (v : LeafVal) : Except String (FS × Bool) :=
  match fs.register { name := tag.Name, usage := tag.Usage, value := v, defValue := v.render } with
  | .error msg => .error msg
  | .ok fs1 =>
    let fs2 := if tag.HideDefault then
        { flags := fs1.flags.map (fun f =>
            if f.name == tag.Name then { f with defValue := "" } else f) }
      else fs1
    .ok (fs2, true)

/-- overrideSTDFlag (bind.go lines 696-715): update an already
registered flag from an overriding tag; the name must already exist.
The Set error is discarded in Go, so a failed parse leaves the current
value unchanged while the recorded default is still replaced. -/
def overrideFlag (fs : FS) (tag : flagTag) : Except BindErr FS :=
  match fs.lookup tag.Name with
  | none => .error (.overrideUndefined tag.Name)
  | some _ =>
    .ok { flags := fs.flags.map (fun f =>
      if f.name == tag.Name then
        let f1 := if tag.DefValue != "" then
            { f with value := (f.value.parseAs tag.DefValue).getD f.value,
                     defValue := tag.DefValue }
          else f
        let f2 := if tag.Usage != "" then { f1 with usage := tag.Usage } else f1
        if tag.HideDefault then { f2 with defValue := "" } else f2
      else f) }

/-- setDefaults (bind.go lines 473-496): visit every flag and replace
its recorded default by the tag default collected for its name. -/
def setDefaults (fs : FS) (ds : List (String × String)) : FS :=
  { flags := fs.flags.map (fun f =>
      match ds.lookup f.name with
      | some dv => { f with defValue := dv }
      | none => f) }

/-- The return path of bind (bind.go lines 335-342 and 470): on normal
completion setDefaults runs; a pending panic is intercepted by the
deferred recover and converted, after TrimSpace, into a returned error.
The returned pair is the error result together with the flag set as
mutated by the call. -/
def runRecover : LoopRes → Option BindErr × FS
  | .ok fs ds => (none, setDefaults fs ds)
  | .err e fs => (some e, fs)
  | .panicked msg fs => (some (.recovered (String.mk (trimSpace msg.data))), fs)

/-- The two continue tests at the top of the field loop (bind.go lines
356-372): skip an unexported non-metadata field, and skip an ignored
tag, both leaving the loop position unchanged. -/
def fieldSkipped (b : BindState) (fname : String) (ftagStr : Option String) : Bool :=
  (!isExportedName fname && !(fname == "_")) ||
    b.IsIgnored (newFlagTag (ftagStr.getD ""))

/-- Tag resolution for one field (bind.go lines 366-383): parse the tag,
auto-populate the name, and scan the following use-tagged fields. -/
def scanTag (fname : String) (ftagStr : Option String) (rest : List StructField) :
    flagTag × List StructField :=
  loadExtendedUsage (autoName (newFlagTag (ftagStr.getD "")) fname) rest

/-- The metadata branch of the field loop (bind.go lines 386-393): a
blank-identifier field with a flag tag overrides an existing flag;
without a flag tag it does nothing. -/
def overrideStep (fs : FS) (hasTag : Bool) (tag : flagTag) : Except BindErr FS :=
  if hasTag then overrideFlag fs tag else .ok fs

/-- The prefix computation for a nested struct field (bind.go lines
427-442): grow the prefix with the resolved name unless flattening
applies, then append the separator. -/
def childState (b : BindState) (tag : flagTag) (fanon : Bool) : BindState :=
  let pfx := if !tag.Flatten && (b.NoAutoFlatten || !fanon || tag.HasExplicitName)
             then b.Prefix ++ tag.Name else b.Prefix
  { b with Prefix := appendSeparator pfx }

/-- The outcome of processing one leaf field: continue the loop with the
updated flag set and defaults, or leave the loop early. -/
inductive LeafStep where
  | cont (fs : FS) (ds : List (String × String)) : LeafStep
  | halt (r : LoopRes) : LeafStep
deriving Repr, DecidableEq

/-- The leaf branch of the field loop (bind.go lines 450-467): prepend
the prefix to the name, register the flag (a duplicate leaves a pending
panic), and when the field value was zero and a tag default literal was
given, record it and set it on the flag set. -/
def leafStep (b : BindState) (fs : FS) (ds : List (String × String))
    (fname : String) (tag : flagTag) (v : LeafVal) : LeafStep :=
  let tagL := { tag with Name := b.Prefix ++ tag.Name }
  match bindSTDFlag fs tagL v with
  | .error msg => .halt (.panicked msg fs)
  | .ok (fs2, newFlag) =>
    if !newFlag then .cont fs2 ds
    else if v.isZero && tagL.DefValue != "" then
      match fs2.set tagL.Name tagL.DefValue with
      | .error msg => .halt (.err (.defaultValue fname tagL.DefValue msg) fs2)
      | .ok fs3 => .cont fs3 (ds ++ [(tagL.Name, tagL.DefValue)])
    else .cont fs2 ds

/-- The field loop of bind (bind.go lines 351-468), for a flag set with
the standard capability set.  Nested struct fields re-enter bind, which
installs its own recover and runs setDefaults for that level; fields of
the model never implement Binder or the value interfaces, so a struct
field is always recursed into. -/
def bindFields (b : BindState) (fs : FS) (ds : List (String × String)) :
    List StructField → LoopRes
  | [] => .ok fs ds
  | .mk fname ftagStr _fuse fanon fval :: rest =>
    if fieldSkipped b fname ftagStr then bindFields b fs ds rest
    else
      let scanned := scanTag fname ftagStr rest
      let tag := scanned.1
      let rest2 := scanned.2
      if fname == "_" then
        match overrideStep fs ftagStr.isSome tag with
        | .error e => .err e fs
        | .ok fs2 => bindFields b fs2 ds rest2
      else
        match fval with
        | .nested subfields =>
          match runRecover (bindFields (childState b tag fanon) fs [] subfields) with
          | (some e, fs2) => .err (.nestedStruct fname e) fs2
          | (none, fs2) => bindFields b fs2 ds rest2
        | .leaf v =>
          match leafStep b fs ds fname tag v with
          | .halt r => r
          | .cont fs2 ds2 => bindFields b fs2 ds2 rest2
termination_by l => sizeOf l
decreasing_by
  all_goals simp_wf
  all_goals try omega
  all_goals { have h := loadExtendedUsage_sizeOf_le (autoName (newFlagTag (ftagStr.getD "")) fname) rest ; simp [scanTag] ; omega }

/-- A fuel-indexed structural evaluator for the field loop, used only to
compute bindFields on concrete inputs by kernel reduction; it mirrors
bindFields exactly and returns none when the fuel runs out.  The theorem
bindFieldsF_sound shows it agrees with bindFields whenever the fuel
dominates the size of the field list. -/
def bindFieldsF : Nat → BindState → FS → List (String × String) →
    List StructField → Option LoopRes
  | 0, _, _, _, _ => none
  | _ + 1, _, fs, ds, [] => some (.ok fs ds)
  | fuel + 1, b, fs, ds, .mk fname ftagStr _fuse fanon fval :: rest =>
    if fieldSkipped b fname ftagStr then bindFieldsF fuel b fs ds rest
    else
      let scanned := scanTag fname ftagStr rest
      let tag := scanned.1
      let rest2 := scanned.2
      if fname == "_" then
        match overrideStep fs ftagStr.isSome tag with
        | .error e => some (.err e fs)
        | .ok fs2 => bindFieldsF fuel b fs2 ds rest2
      else
        match fval with
        | .nested subfields =>
          match bindFieldsF fuel (childState b tag fanon) fs [] subfields with
          | none => none
          | some r =>
            match runRecover r with
            | (some e, fs2) => some (.err (.nestedStruct fname e) fs2)
            | (none, fs2) => bindFieldsF fuel b fs2 ds rest2
        | .leaf v =>
          match leafStep b fs ds fname tag v with
          | .halt r => some r
          | .cont fs2 ds2 => bindFieldsF fuel b fs2 ds2 rest2

theorem one_le_sizeOf_list (l : List StructField) : 1 ≤ sizeOf l := by
  cases l with
  | nil => simp
  | cons f rest => simp [List.cons.sizeOf_spec]; omega

theorem scanTag_sizeOf_le (fname : String) (ftagStr : Option String)
    (rest : List StructField) : sizeOf (scanTag fname ftagStr rest).2 ≤ sizeOf rest := by
  simp only [scanTag]
  exact loadExtendedUsage_sizeOf_le _ _

theorem bindFieldsF_sound (fuel : Nat) :
    ∀ (b : BindState) (fs : FS) (ds : List (String × String)) (l : List StructField),
      sizeOf l ≤ fuel → bindFieldsF fuel b fs ds l = some (bindFields b fs ds l) := by
  induction fuel with
  | zero =>
    intro b fs ds l hl
    exact absurd hl (by have := one_le_sizeOf_list l ; omega)
  | succ fuel ih =>
    intro b fs ds l hl
    cases l with
    | nil => simp [bindFieldsF, bindFields]
    | cons f rest =>
      cases f with
      | mk fname ftagStr fuse fanon fval =>
        have hsz : sizeOf rest + 1 ≤ fuel + 1 ∧ sizeOf fval + 1 ≤ fuel := by
          simp only [List.cons.sizeOf_spec, StructField.mk.sizeOf_spec] at hl
          have h1 : 1 ≤ sizeOf fname := by cases fname ; simp
          constructor <;> omega
        have hrest : sizeOf rest ≤ fuel := by omega
        have hrest2 : sizeOf (scanTag fname ftagStr rest).2 ≤ fuel :=
          le_trans (scanTag_sizeOf_le fname ftagStr rest) hrest
        rw [bindFields.eq_def]
        simp only [bindFieldsF]
        by_cases hskip : fieldSkipped b fname ftagStr = true
        · rw [if_pos hskip, if_pos hskip]
          exact ih b fs ds rest hrest
        · rw [if_neg hskip, if_neg hskip]
          by_cases hmeta : (fname == "_") = true
          · rw [if_pos hmeta, if_pos hmeta]
            cases hov : overrideStep fs ftagStr.isSome (scanTag fname ftagStr rest).1 with
            | error e => rfl
            | ok fs2 => exact ih b fs2 ds _ hrest2
          · rw [if_neg hmeta, if_neg hmeta]
            cases fval with
            | nested subfields =>
              dsimp only
              have hsub : sizeOf subfields ≤ fuel := by
                have := hsz.2
                simp only [FieldValue.nested.sizeOf_spec] at this
                omega
              rw [ih _ fs [] subfields hsub]
              dsimp only
              cases hr : runRecover (bindFields (childState b (scanTag fname ftagStr rest).1 fanon) fs [] subfields) with
              | mk oe fs2 =>
                cases oe with
                | none => exact ih b fs2 ds _ hrest2
                | some e => rfl
            | leaf v =>
              dsimp only
              cases hls : leafStep b fs ds fname (scanTag fname ftagStr rest).1 v with
              | halt r => rfl
              | cont fs2 ds2 => exact ih b fs2 ds2 _ hrest2

/-- The shape of the value passed to Bind, as inspected by reflection:
not a pointer, a nil pointer, a pointer to a non-struct, or a non-nil
pointer to a struct with the given fields. -/
inductive GoShape where
  | nonPtr : GoShape
  | nilPtr : GoShape
  | ptrToNonStruct : GoShape
  | ptrToStruct (fields : List StructField) : GoShape

/-- The value passed to Bind: its reflective shape together with an
optional Binder implementation (the FlagBind method of the dynamic type,
taking the flag set and the prefix). -/
structure GoValue where
  binderImpl : Option (FS → String → Option BindErr × FS) := none
  shape : GoShape

/-- bind (bind.go lines 306-342): hand control to a Binder
implementation when one exists, otherwise require a non-nil pointer to a
struct (ErrorInvalidType with the nil marker as in bind.go), then run
the field loop under the deferred recover and setDefaults. -/
def bindVal (b : BindState) (fs : FS) (v : GoValue) : Option BindErr × FS :=
  match v.binderImpl with
  | some impl => impl fs b.Prefix
  | none =>
    match v.shape with
    | .nonPtr => (some (.invalidType false), fs)
    | .nilPtr => (some (.invalidType true), fs)
    | .ptrToNonStruct => (some (.invalidType false), fs)
    | .ptrToStruct fields => runRecover (bindFields b fs [] fields)

/-- Bind (bind.go line 289) with no options: the default bind state. -/
def Bind (fs : FS) (v : GoValue) : Option BindErr × FS := bindVal {} fs v

example : FromCamelCase "APIUrlID" "-" = "api-url-id" := by decide
example : parseNames {} "r,rlong" =
    { Name := "rlong", ShortName := "r", HasExplicitName := true } := by decide
example : newFlagTag ";;;flatten" = { Flatten := true } := by decide
example : newFlagTag "url,u;http;Usage here;hidden" =
    { Name := "url", ShortName := "u", HasExplicitName := true,
      DefValue := "http", Usage := "Usage here", Hidden := true } := by decide

/-! ## Claim theorems -/

/-- C1, counterexample: the claim that parsing the name segment
"r,rlong" yields the long name "rlong" with an empty short name is false
at this very input: after the length sort the one-character candidate
"r" remains as the short name; the oversized-short-name censor never
fires because the short name after sorting has length one. -/
theorem claim1_counterexample :
    ¬ ((parseNames {} "r,rlong").Name = "rlong" ∧
       (parseNames {} "r,rlong").ShortName = "") := by decide

/-- C1, amended: parsing the name segment "r,rlong" yields the long
name "rlong" and the short name "r": the longer candidate wins the
length sort, and the one-character candidate is kept as the short name. -/
theorem claim1_short_name_kept :
    parseNames {} "r,rlong" =
      { Name := "rlong", ShortName := "r", HasExplicitName := true } := by decide

/-- C5: the name deriver FromCamelCase with separator "-" produces
exactly the eight fixed mappings of the claim. -/
theorem claim5_fromCamelCase_values :
    FromCamelCase "ID" "-" = "id" ∧
    FromCamelCase "NewID" "-" = "new-id" ∧
    FromCamelCase "ServerURL" "-" = "server-url" ∧
    FromCamelCase "APIServerURL" "-" = "api-server-url" ∧
    FromCamelCase "APIUrlID" "-" = "api-url-id" ∧
    FromCamelCase "AutoKebab" "-" = "auto-kebab" ∧
    FromCamelCase "StructABool" "-" = "struct-a-bool" ∧
    FromCamelCase "URL" "-" = "url" := by decide

/-- C8: tag name parsing is order-independent in its two comma-separated
candidates: the name segments "long,s" and "s,long" parse to identical
settings, with long name "long" and short name "s". -/
theorem claim8_name_order_symmetry :
    parseNames {} "long,s" = parseNames {} "s,long" ∧
    (parseNames {} "long,s").Name = "long" ∧
    (parseNames {} "long,s").ShortName = "s" := by decide

/-- The struct StructA of the nested-binding claim: one bool field. -/
def structAFields : List StructField :=
  [.mk "StructABool" none none false (.leaf (.boolV false))]

/-- A struct with one named nested field of type StructA and no tags. -/
def nestedDefault : List StructField :=
  [.mk "Nested" none none false (.nested structAFields)]

/-- The same struct with the flatten option on the Nested field. -/
def nestedFlatten : List StructField :=
  [.mk "Nested" (some ";;;flatten") none false (.nested structAFields)]

/-- C3: binding the struct with the named nested field Nested of type
StructA registers exactly the flag "nested-struct-a-bool" (kebab-cased
parent name, separator, child name); with the flatten option on the
Nested field the registered flag is "struct-a-bool" with no prefix. -/
theorem claim3_nested_prefix_names :
    Bind ⟨[]⟩ ⟨none, .ptrToStruct nestedDefault⟩
      = (none, ⟨[Flag.mk "nested-struct-a-bool" "" (.boolV false) "false"]⟩) ∧
    Bind ⟨[]⟩ ⟨none, .ptrToStruct nestedFlatten⟩
      = (none, ⟨[Flag.mk "struct-a-bool" "" (.boolV false) "false"]⟩) := by
  constructor
  · have h2 : bindFieldsF (sizeOf nestedDefault) {} ⟨[]⟩ [] nestedDefault
        = some (.ok ⟨[Flag.mk "nested-struct-a-bool" "" (.boolV false) "false"]⟩ []) := by
      decide
    have h3 := Option.some.inj
      ((bindFieldsF_sound (sizeOf nestedDefault) {} ⟨[]⟩ [] nestedDefault
        (le_refl _)).symm.trans h2)
    show runRecover (bindFields {} ⟨[]⟩ [] nestedDefault) = _
    rw [h3]
    decide
  · have h2 : bindFieldsF (sizeOf nestedFlatten) {} ⟨[]⟩ [] nestedFlatten
        = some (.ok ⟨[Flag.mk "struct-a-bool" "" (.boolV false) "false"]⟩ []) := by
      decide
    have h3 := Option.some.inj
      ((bindFieldsF_sound (sizeOf nestedFlatten) {} ⟨[]⟩ [] nestedFlatten
        (le_refl _)).symm.trans h2)
    show runRecover (bindFields {} ⟨[]⟩ [] nestedFlatten) = _
    rw [h3]
    decide

/-- The struct of the extended-usage claim: a leaf field with a usage
text in its tag, followed by two blank-identifier fields with use tags. -/
def extUsageFields : List StructField :=
  [.mk "URL" (some "url;;Start usage here") none false (.leaf (.strV "")),
   .mk "_" none (some "and continues here") false (.nested []),
   .mk "_" none (some "and ends here.") false (.nested [])]

/-- C7: the leaf field registers one flag whose usage string is the tag
usage followed by the two use-tag texts, joined by single spaces in
declaration order; the two placeholder fields are consumed by the usage
scan (the loop advances past them), so exactly one flag is registered. -/
theorem claim7_extended_usage :
    Bind ⟨[]⟩ ⟨none, .ptrToStruct extUsageFields⟩
      = (none, ⟨[Flag.mk "url"
          "Start usage here and continues here and ends here."
          (.strV "") ""]⟩) := by
  have h2 : bindFieldsF (sizeOf extUsageFields) {} ⟨[]⟩ [] extUsageFields
      = some (.ok ⟨[Flag.mk "url"
          "Start usage here and continues here and ends here."
          (.strV "") ""]⟩ []) := by
    decide
  have h3 := Option.some.inj
    ((bindFieldsF_sound (sizeOf extUsageFields) {} ⟨[]⟩ [] extUsageFields
      (le_refl _)).symm.trans h2)
  show runRecover (bindFields {} ⟨[]⟩ [] extUsageFields) = _
  rw [h3]
  decide

/-- A value whose dynamic type implements Binder with a FlagBind method
that does nothing, and whose reflective shape is not a pointer. -/
def trivialBinder : GoValue :=
  { binderImpl := some (fun fs _ => (none, fs)), shape := .nonPtr }

/-- C6, counterexample: the claim that every value that is not a non-nil
pointer to a struct makes Bind return an invalid-type error fails at a
non-pointer value implementing Binder: bind hands control to the
FlagBind method before the pointer and struct checks (bind.go line 309),
and here Bind returns no error at all. -/
theorem claim6_counterexample :
    (∀ fields, trivialBinder.shape ≠ GoShape.ptrToStruct fields) ∧
    Bind ⟨[]⟩ trivialBinder = (none, ⟨[]⟩) := by
  refine ⟨fun fields h => ?_, rfl⟩
  simp [trivialBinder] at h

/-- C6, amended: for every value that does not implement Binder and is
not a non-nil pointer to a struct, Bind returns ErrorInvalidType
immediately (with the nil marker set exactly for a nil pointer) and the
flag set is returned unchanged: no flag is registered. -/
theorem claim6_invalid_type (fs : FS) (v : GoValue)
    (hb : v.binderImpl = none)
    (hs : ∀ fields, v.shape ≠ GoShape.ptrToStruct fields) :
    ∃ isNil, Bind fs v = (some (.invalidType isNil), fs) := by
  cases h : v.shape with
  | nonPtr => exact ⟨false, by simp [Bind, bindVal, hb, h]⟩
  | nilPtr => exact ⟨true, by simp [Bind, bindVal, hb, h]⟩
  | ptrToNonStruct => exact ⟨false, by simp [Bind, bindVal, hb, h]⟩
  | ptrToStruct fields => exact absurd h (hs fields)

/-- C6, witness: the amended theorem applied to a plain non-pointer
value with no Binder implementation. -/
theorem claim6_witness :
    (GoValue.mk none .nonPtr).binderImpl = none ∧
    (∀ fields, (GoValue.mk none .nonPtr).shape ≠ GoShape.ptrToStruct fields) ∧
    ∃ isNil, Bind ⟨[]⟩ (GoValue.mk none .nonPtr) = (some (.invalidType isNil), ⟨[]⟩) :=
  ⟨rfl, fun fields h => by simp at h,
    claim6_invalid_type ⟨[]⟩ (GoValue.mk none .nonPtr) rfl (fun fields h => by simp at h)⟩

theorem str_empty_append (s : String) : "" ++ s = s := rfl

theorem exported_ne_underscore (n : String) (h : isExportedName n = true) :
    (n == "_") = false := by
  cases hb : n == "_" with
  | false => rfl
  | true =>
    have : n = "_" := eq_of_beq hb
    subst this
    exact absurd h (by decide)

theorem autoName_HideDefault (t : flagTag) (n : String) :
    (autoName t n).HideDefault = t.HideDefault := by
  unfold autoName; split <;> rfl

/-- C4: binding a single exported leaf field whose current value is
non-zero registers a flag whose recorded default is the rendering of
that current value and whose value is that current value: the tag
default literal is never applied (the binder only assigns it when the
field value is zero and the literal is non-empty).  The hide-default
option is off, so the recorded default is not blanked. -/
theorem claim4_nonzero_default (fieldName tagStr : String) (v : LeafVal)
    (hexp : isExportedName fieldName = true)
    (hign : (newFlagTag tagStr).IsIgnored = false)
    (hhd : (newFlagTag tagStr).HideDefault = false)
    (hnz : v.isZero = false) :
    Bind ⟨[]⟩ ⟨none, .ptrToStruct [.mk fieldName (some tagStr) none false (.leaf v)]⟩
      = (none, ⟨[Flag.mk (autoName (newFlagTag tagStr) fieldName).Name
          (autoName (newFlagTag tagStr) fieldName).Usage v v.render]⟩) := by
  have hne := exported_ne_underscore fieldName hexp
  simp only [Bind, bindVal]
  rw [bindFields.eq_def]
  simp only [fieldSkipped, BindState.IsIgnored, Option.getD_some, hexp, hign, hne,
    Bool.not_true, Bool.false_and, Bool.or_false, Bool.false_or, if_false, Bool.and_self]
  simp [scanTag, loadExtendedUsage, overrideStep, leafStep, bindSTDFlag,
    FS.register, FS.lookup, FS.set, runRecover, setDefaults, bindFields,
    autoName_HideDefault, hhd, hnz, str_empty_append]

/-- C4, witness: a field Num with tag default literal 5 and current
value 7 binds with default "7" and value 7; the tag literal is ignored. -/
theorem claim4_witness :
    isExportedName "Num" = true ∧
    (newFlagTag ";5").IsIgnored = false ∧
    (newFlagTag ";5").HideDefault = false ∧
    (LeafVal.intV 7).isZero = false ∧
    Bind ⟨[]⟩ ⟨none, .ptrToStruct [.mk "Num" (some ";5") none false (.leaf (.intV 7))]⟩
      = (none, ⟨[Flag.mk "num" "" (.intV 7) "7"]⟩) :=
  ⟨by decide, by decide, by decide, by decide,
    (claim4_nonzero_default "Num" ";5" (.intV 7)
      (by decide) (by decide) (by decide) (by decide)).trans (by decide)⟩

theorem splitOnChar_not_mem (sep : Char) (a : List Char) (ha : sep ∉ a) :
    splitOnChar sep a = [a] := by
  induction a with
  | nil => rfl
  | cons c a ih =>
    have hc : ¬ c = sep := fun h => ha (h ▸ List.mem_cons_self c a)
    have ha' : sep ∉ a := fun h => ha (List.mem_cons_of_mem c h)
    rw [splitOnChar, if_neg hc, ih ha']

theorem splitOnChar_append_cons (sep : Char) (a rest : List Char) (ha : sep ∉ a) :
    splitOnChar sep (a ++ sep :: rest) = a :: splitOnChar sep rest := by
  induction a with
  | nil => simp [splitOnChar]
  | cons c a ih =>
    have hc : ¬ c = sep := fun h => ha (h ▸ List.mem_cons_self c a)
    have ha' : sep ∉ a := fun h => ha (List.mem_cons_of_mem c h)
    rw [List.cons_append, splitOnChar, if_neg hc, ih ha']

/-- C10: when the name segment contains two or more commas, only the
first two comma-separated candidates take part in the long and short
name resolution: any tail of further comma-separated candidates is
discarded, and parseNames gives the same result as on the first two
candidates alone. -/
theorem claim10_extra_candidates_ignored (ft : flagTag) (a b t : List Char)
    (ha : ',' ∉ a) (hb : ',' ∉ b) :
    parseNames ft ⟨a ++ ',' :: (b ++ ',' :: t)⟩ = parseNames ft ⟨a ++ ',' :: b⟩ := by
  unfold parseNames
  have e1 : splitOnChar ',' (String.mk (a ++ ',' :: (b ++ ',' :: t))).data
      = a :: b :: splitOnChar ',' t := by
    show splitOnChar ',' (a ++ ',' :: (b ++ ',' :: t)) = _
    rw [splitOnChar_append_cons _ _ _ ha, splitOnChar_append_cons _ _ _ hb]
  have e2 : splitOnChar ',' (String.mk (a ++ ',' :: b)).data = a :: [b] := by
    show splitOnChar ',' (a ++ ',' :: b) = _
    rw [splitOnChar_append_cons _ _ _ ha, splitOnChar_not_mem _ _ hb]
  rw [e1, e2]
  rfl

/-- C10, witness: in the segment "a,bc,def" only the candidates "a" and
"bc" are considered; the parse result equals that of "a,bc". -/
theorem claim10_witness :
    (',' ∉ "a".data) ∧ (',' ∉ "bc".data) ∧
    parseNames {} "a,bc,def" = parseNames {} "a,bc" :=
  ⟨by decide, by decide,
    claim10_extra_candidates_ignored {} "a".data "bc".data "def".data
      (by decide) (by decide)⟩

/-- Deleting every dash character from a character list. -/
def removeDash (l : List Char) : List Char := l.filter (fun c => !(c == '-'))

theorem char_toNat_ofNat (n : Nat) (h : n < 55296) : (Char.ofNat n).toNat = n := by
  unfold Char.ofNat
  rw [dif_pos (Or.inl h)]
  rfl

theorem toLowerGo_ne_dash (c : Char) (h : isUpperGo c = true) :
    (toLowerGo c == '-') = false := by
  have hb := of_decide_eq_true h
  cases hbe : toLowerGo c == '-' with
  | false => rfl
  | true =>
    exfalso
    have heq : toLowerGo c = '-' := eq_of_beq hbe
    have h45 : (toLowerGo c).toNat = 45 := by rw [heq] ; rfl
    rw [toLowerGo, if_pos hb, char_toNat_ofNat (c.toNat + 32) (by omega)] at h45
    omega

theorem toLowerGo_of_not_upper (c : Char) (h : isUpperGo c = false) :
    toLowerGo c = c := by
  unfold toLowerGo
  rw [if_neg (of_decide_eq_false h)]

theorem removeDash_append (x y : List Char) :
    removeDash (x ++ y) = removeDash x ++ removeDash y := by
  simp [removeDash]

theorem removeDash_of_no_dash (l : List Char) (h : ∀ c ∈ l, (c == '-') = false) :
    removeDash l = l := by
  unfold removeDash
  rw [List.filter_eq_self]
  intro a ha
  simp [h a ha]

theorem removeDash_dash : removeDash ['-'] = [] := by decide

/-- The invariant of the FromCamelCase loop: over input without dashes,
the concatenation of the dash-free projection of the kebab accumulator
with the acronym buffer collects exactly the lower-cased input, and the
acronym buffer never holds a dash. -/
theorem fcc_loop_invariant (cs : List Char) : ∀ (kb ac : List Char),
    (∀ c ∈ cs, (c == '-') = false) → (∀ c ∈ ac, (c == '-') = false) →
    (removeDash (cs.foldl (fccStep ['-']) (kb, ac)).1
        ++ (cs.foldl (fccStep ['-']) (kb, ac)).2
      = removeDash kb ++ ac ++ cs.map toLowerGo)
    ∧ ∀ c ∈ (cs.foldl (fccStep ['-']) (kb, ac)).2, (c == '-') = false := by
  induction cs with
  | nil =>
    intro kb ac _ hac
    exact ⟨by simp, hac⟩
  | cons c cs ih =>
    intro kb ac hcs hac
    have hc : (c == '-') = false := hcs c (List.mem_cons_self c cs)
    have hcs' : ∀ x ∈ cs, (x == '-') = false :=
      fun x hx => hcs x (List.mem_cons_of_mem c hx)
    rw [List.foldl_cons]
    by_cases hu : isUpperGo c = true
    · have hst : fccStep ['-'] (kb, ac) c = (kb, ac ++ [toLowerGo c]) := by
        simp [fccStep, hu]
      rw [hst]
      have hac' : ∀ x ∈ ac ++ [toLowerGo c], (x == '-') = false := by
        intro x hx
        rcases List.mem_append.mp hx with hx1 | hx2
        · exact hac x hx1
        · rw [List.mem_singleton.mp hx2]
          exact toLowerGo_ne_dash c hu
      obtain ⟨h1, h2⟩ := ih kb (ac ++ [toLowerGo c]) hcs' hac'
      refine ⟨?_, h2⟩
      rw [h1]
      simp [List.append_assoc]
    · have hu' : isUpperGo c = false := by
        revert hu ; cases isUpperGo c <;> simp
      have hlow : toLowerGo c = c := toLowerGo_of_not_upper c hu'
      have hst : fccStep ['-'] (kb, ac) c =
          ((if ac.length > 1 then
              (if kb ≠ [] then kb ++ ['-'] else kb)
                ++ ac.dropLast ++ ['-'] ++ [ac.getLastD ' ']
            else if ac ≠ [] then
              (if kb ≠ [] then kb ++ ['-'] else kb) ++ ac
            else kb) ++ [c], []) := by
        simp [fccStep, hu']
      rw [hst]
      obtain ⟨h1, h2⟩ := ih _ [] hcs' (by intro x hx ; cases hx)
      refine ⟨?_, h2⟩
      rw [h1]
      have hkbsep : removeDash (if kb ≠ [] then kb ++ ['-'] else kb) = removeDash kb := by
        by_cases hkb : kb ≠ []
        · rw [if_pos hkb, removeDash_append, removeDash_dash, List.append_nil]
        · rw [if_neg hkb]
      have hX : removeDash
          ((if ac.length > 1 then
              (if kb ≠ [] then kb ++ ['-'] else kb)
                ++ ac.dropLast ++ ['-'] ++ [ac.getLastD ' ']
            else if ac ≠ [] then
              (if kb ≠ [] then kb ++ ['-'] else kb) ++ ac
            else kb) ++ [c])
          = removeDash kb ++ ac ++ [c] := by
        by_cases hlen : ac.length > 1
        · rw [if_pos hlen]
          rcases (List.eq_nil_or_concat ac) with hnil | ⟨as, a, rfl⟩
          · rw [hnil] at hlen ; simp at hlen
          · simp only [List.concat_eq_append] at hac hlen ⊢
            have has : ∀ x ∈ as, (x == '-') = false :=
              fun x hx => hac x (List.mem_append.mpr (Or.inl hx))
            have haa : (a == '-') = false :=
              hac a (List.mem_append.mpr (Or.inr (List.mem_singleton.mpr rfl)))
            rw [List.dropLast_concat, List.getLastD_concat]
            rw [removeDash_append, removeDash_append, removeDash_append,
              removeDash_append, hkbsep, removeDash_dash,
              removeDash_of_no_dash as has,
              removeDash_of_no_dash [a] (by intro x hx ; rw [List.mem_singleton.mp hx] ; exact haa),
              removeDash_of_no_dash [c] (by intro x hx ; rw [List.mem_singleton.mp hx] ; exact hc)]
            simp [List.append_assoc]
        · rw [if_neg hlen]
          by_cases hne : ac ≠ []
          · rw [if_pos hne]
            rw [removeDash_append, removeDash_append, hkbsep,
              removeDash_of_no_dash ac hac,
              removeDash_of_no_dash [c] (by intro x hx ; rw [List.mem_singleton.mp hx] ; exact hc)]
            try simp [List.append_assoc]
          · rw [if_neg hne]
            push_neg at hne
            rw [hne, removeDash_append,
              removeDash_of_no_dash [c] (by intro x hx ; rw [List.mem_singleton.mp hx] ; exact hc)]
            simp
      rw [hX]
      simp [hlow, List.append_assoc]

/-- C9: for every identifier containing no dash, deleting every dash
from FromCamelCase of the identifier with separator "-" yields exactly
the lower-cased identifier: the name deriver only lowercases characters
and inserts separators, and never drops, duplicates or reorders input
characters. -/
theorem claim9_lowercase_projection (s : String) (h : '-' ∉ s.data) :
    removeDash (FromCamelCase s "-").data = toLowerList s.data := by
  have hnd : ∀ c ∈ s.data, (c == '-') = false := by
    intro c hcmem
    cases hce : c == '-' with
    | false => rfl
    | true => exact absurd ((eq_of_beq hce) ▸ hcmem) h
  obtain ⟨h1, h2⟩ := fcc_loop_invariant s.data [] [] hnd (by intro x hx ; cases hx)
  show removeDash (fccFinish ['-'] (s.data.foldl (fccStep ['-']) ([], []))) = _
  unfold fccFinish
  by_cases hif : (s.data.foldl (fccStep ['-']) ([], [])).1 ≠ []
      ∧ (s.data.foldl (fccStep ['-']) ([], [])).2 ≠ []
  · rw [if_pos hif, removeDash_append, removeDash_append, removeDash_dash,
      List.append_nil, removeDash_of_no_dash _ h2]
    simpa using h1
  · rw [if_neg hif, removeDash_append, removeDash_of_no_dash _ h2]
    simpa using h1

/-- C9, witness: the theorem applied to the identifier NewID. -/
theorem claim9_witness :
    ('-' ∉ "NewID".data) ∧
    removeDash (FromCamelCase "NewID" "-").data = toLowerList "NewID".data :=
  ⟨by decide, claim9_lowercase_projection "NewID" (by decide)⟩

/-- The flag name resolved for an untagged exported leaf field: the
field identifier through FromCamelCase with the separator. -/
def resolvedName (n : String) : String := FromCamelCase n Separator

/-- An untagged exported leaf field, from an identifier and a value. -/
def simpleField (p : String × LeafVal) : StructField :=
  .mk p.1 none none false (.leaf p.2)

/-- Membership test in a list of names, oriented as the flag set lookup
compares names. -/
def containsName (l : List String) (n : String) : Bool :=
  l.any (fun m => m == n)

/-- The first name in the list that repeats an earlier name or one of
the initially seen names; none when all names are fresh and distinct. -/
def firstDupFrom (seen : List String) : List String → Option String
  | [] => none
  | n :: ns => if containsName seen n then some n else firstDupFrom (seen ++ [n]) ns

theorem lookup_isSome_eq_containsName (fs : FS) (n : String) :
    (fs.lookup n).isSome = containsName (fs.flags.map (fun f => f.name)) n := by
  obtain ⟨l⟩ := fs
  show (FS.lookup ⟨l⟩ n).isSome = containsName (l.map (fun f => f.name)) n
  induction l with
  | nil => rfl
  | cons f t ih =>
    show (List.find? (fun g => g.name == n) (f :: t)).isSome = _
    rw [List.find?_cons]
    cases hf : f.name == n with
    | true => simp [containsName, hf]
    | false =>
      simp only [containsName, List.map_cons, List.any_cons, hf, Bool.false_or]
      exact ih

theorem autoName_of_empty_tag (n : String) :
    autoName (newFlagTag "") n = { Name := resolvedName n } := by
  have h : newFlagTag "" = ({} : flagTag) := by decide
  rw [h]
  simp [autoName, usePFlag, resolvedName]

theorem loadExtendedUsage_simple (t : flagTag) (l : List (String × LeafVal))
    (h : ∀ p ∈ l, isExportedName p.1 = true) :
    loadExtendedUsage t (l.map simpleField) = (t, l.map simpleField) := by
  cases l with
  | nil => rfl
  | cons q l2 =>
    have hq := exported_ne_underscore q.1 (h q (List.mem_cons_self q l2))
    simp [loadExtendedUsage, simpleField, StructField.name, ne_of_beq_false hq]

/-- One pass of the field loop over untagged exported leaf fields: if
the resolved names contain a repetition (relative to the names already
registered in the flag set), the loop leaves a pending panic from the
registry naming the first repeated flag name. -/
theorem bindFields_simple_dup :
    ∀ (l : List (String × LeafVal)) (fs : FS) (ds : List (String × String)) (d : String),
      (∀ p ∈ l, isExportedName p.1 = true) →
      firstDupFrom (fs.flags.map (fun f => f.name)) (l.map (fun p => resolvedName p.1))
        = some d →
      ∃ fs1, bindFields {} fs ds (l.map simpleField)
        = .panicked ("flag redefined: " ++ d) fs1 := by
  intro l
  induction l with
  | nil =>
    intro fs ds d _ hdup
    exact absurd hdup (by simp [firstDupFrom])
  | cons p l' ih =>
    intro fs ds d hexp hdup
    obtain ⟨n, v⟩ := p
    have hexp0 : isExportedName n = true := hexp _ (List.mem_cons_self _ _)
    have hexp' : ∀ q ∈ l', isExportedName q.1 = true :=
      fun q hq => hexp q (List.mem_cons_of_mem _ hq)
    have hne := exported_ne_underscore n hexp0
    have hskip : fieldSkipped {} n none = false := by
      simp [fieldSkipped, BindState.IsIgnored, hexp0, hne]
      decide
    have hscan : scanTag n none (l'.map simpleField)
        = ({ Name := resolvedName n }, l'.map simpleField) := by
      unfold scanTag
      rw [Option.getD_none, loadExtendedUsage_simple _ l' hexp', autoName_of_empty_tag]
    rw [List.map_cons]
    rw [bindFields.eq_def]
    simp only [simpleField, hskip, Bool.false_eq_true, if_false, hscan, hne]
    simp only [leafStep, bindSTDFlag, FS.register, str_empty_append,
      lookup_isSome_eq_containsName]
    simp only [firstDupFrom, List.map_cons] at hdup
    cases hcont : containsName (fs.flags.map (fun f => f.name)) (resolvedName n) with
    | true =>
      rw [hcont] at hdup
      simp at hdup
      obtain rfl := hdup
      refine ⟨fs, ?_⟩
      simp [lookup_isSome_eq_containsName, hcont]
    | false =>
      rw [hcont] at hdup
      simp at hdup
      obtain ⟨fs1, hrec⟩ := ih ⟨fs.flags ++ [Flag.mk (resolvedName n) "" v v.render]⟩ ds d hexp'
        (by simpa using hdup)
      refine ⟨fs1, ?_⟩
      simp [lookup_isSome_eq_containsName, hcont]
      exact hrec

/-- C2: a struct of untagged exported leaf fields in which two fields
resolve to the same flag name makes Bind return a normal error: the flag
registry signals the duplicate by a panic naming the redefined flag, and
the deferred recover in bind converts that panic, after TrimSpace, into
the returned error carrying the duplicate name; the panic never reaches
the caller. -/
theorem claim2_duplicate_name_error (l : List (String × LeafVal)) (d : String)
    (hexp : ∀ p ∈ l, isExportedName p.1 = true)
    (hdup : firstDupFrom [] (l.map (fun p => resolvedName p.1)) = some d) :
    ∃ fs1, Bind ⟨[]⟩ ⟨none, .ptrToStruct (l.map simpleField)⟩
      = (some (.recovered (String.mk (trimSpace ("flag redefined: " ++ d).data))), fs1) := by
  obtain ⟨fs1, h⟩ := bindFields_simple_dup l ⟨[]⟩ [] d hexp (by simpa using hdup)
  refine ⟨fs1, ?_⟩
  show runRecover (bindFields {} ⟨[]⟩ [] (l.map simpleField)) = _
  rw [h]
  rfl

/-- C2, witness: the fields FooBar and FOOBar both resolve to the flag
name foo-bar; Bind returns the recovered duplicate-name error. -/
theorem claim2_witness :
    (∀ p ∈ [("FooBar", LeafVal.boolV false), ("FOOBar", LeafVal.boolV true)],
      isExportedName p.1 = true) ∧
    firstDupFrom [] ([("FooBar", LeafVal.boolV false), ("FOOBar", LeafVal.boolV true)].map
      (fun p => resolvedName p.1)) = some "foo-bar" ∧
    ∃ fs1, Bind ⟨[]⟩ ⟨none, .ptrToStruct
        ([("FooBar", LeafVal.boolV false), ("FOOBar", LeafVal.boolV true)].map simpleField)⟩
      = (some (.recovered (String.mk (trimSpace ("flag redefined: " ++ "foo-bar").data))), fs1) :=
  ⟨by decide, by decide,
    claim2_duplicate_name_error _ _ (by decide) (by decide)⟩

end Flagbind
